import Mathlib

/-!
Verification development for the Youtube_project repository
(src/excel_summarizer.py and src/Youtube_search.py).

The Python source is shallowly embedded: pure string manipulation is
modelled on `List Char`, stateful loops become explicit recursion, and
every external service call (YouTube Data API, transcript API, OpenAI
completion, the shared GUI cancellation flag) is modelled as an explicit
oracle argument describing the outcome the service would produce.
-/

set_option maxRecDepth 4000

/-! ## Identifier Extractor (`extract_video_id`, src/excel_summarizer.py lines 88-118) -/

/-- Character class of the regex `[a-zA-Z0-9_-]` used by the shorts pattern
and satisfied by every real YouTube video id. -/
def isIdChar (c : Char) : Bool :=
  c.isAlphanum || c == '-' || c == '_'

/-- Python's substring test `needle in haystack`. -/
def containsSub (n : List Char) : List Char → Bool
  | [] => n.isEmpty
  | c :: t => n.isPrefixOf (c :: t) || containsSub n t

/-- One anchored attempt of the regex `shorts/([a-zA-Z0-9_-]+)` at the head of
the list: the literal `shorts/` followed by a non-empty greedy run of id
characters. -/
def matchShortsAt (s : List Char) : Option (List Char) :=
  if "shorts/".data.isPrefixOf s then
    let run := (s.drop 7).takeWhile isIdChar
    if run.isEmpty then none else some run
  else none

/-- `re.search(r'shorts/([a-zA-Z0-9_-]+)', url)`: try the anchored match at
every start position, left to right, returning the first capture. -/
def searchShorts : List Char → Option (List Char)
  | [] => none
  | c :: t =>
    match matchShortsAt (c :: t) with
    | some r => some r
    | none => searchShorts t

/-- Python `url.split('/')[-1]`: the characters after the last `/`
(the whole string when there is no `/`). -/
def afterLastSlash (s : List Char) : List Char :=
  (s.reverse.takeWhile (fun c => c != '/')).reverse

/-- Python `segment.split('?')[0]`: the characters before the first `?`. -/
def beforeQuery (s : List Char) : List Char :=
  s.takeWhile (fun c => c != '?')

/-- The query component produced by `urlparse`: the fragment (everything from
the first `#`) is split off first, then the query is everything after the
first `?` of what remains. -/
def urlQuery (s : List Char) : List Char :=
  let noFrag := s.takeWhile (fun c => c != '#')
  match noFrag.dropWhile (fun c => c != '?') with
  | [] => []
  | _ :: t => t

/-- Python `str.split(ch)`. -/
def splitOnChar (ch : Char) : List Char → List (List Char)
  | [] => [[]]
  | c :: t =>
    if c == ch then [] :: splitOnChar ch t
    else
      match splitOnChar ch t with
      | [] => [[c]]
      | h :: r => (c :: h) :: r

/-- Splitting one `name=value` piece as `parse_qsl` does (`split('=', 1)`);
`none` when the piece has no `=` (such pieces are skipped because
`keep_blank_values` is false). Percent-decoding is omitted: it is the
identity on video-id characters. -/
def splitEq (piece : List Char) : Option (List Char × List Char) :=
  if piece.any (fun c => c == '=') then
    some (piece.takeWhile (fun c => c != '='),
          (piece.dropWhile (fun c => c != '=')).drop 1)
  else none

/-- `parse_qs(query).get('v', [None])[0]`: the first `v=value` pair with a
non-empty value (pairs with blank values are dropped by `parse_qs`). -/
def findV : List (List Char) → Option (List Char)
  | [] => none
  | piece :: rest =>
    match splitEq piece with
    | some (k, v) =>
      if k == "v".data && !v.isEmpty then some v else findV rest
    | none => findV rest

def parseQsV (q : List Char) : Option (List Char) :=
  findV (splitOnChar '&' q)

/-- A spreadsheet cell / argument value as Python sees it: `None`, a string,
or a non-string value (e.g. the float NaN pandas yields for a blank cell).
The `truthy` flag of `numV` records Python truthiness (NaN is truthy,
0 is not); both guards of `extract_video_id` send every `numV` to `None`. -/
inductive Cell where
  | noneV : Cell
  | strV : List Char → Cell
  | numV : Bool → Cell
deriving DecidableEq

/-- Python truthiness of a cell, as tested by `if not url`. -/
def pyTruthy : Cell → Bool
  | Cell.noneV => false
  | Cell.strV s => !s.isEmpty
  | Cell.numV t => t

def isStrCell : Cell → Bool
  | Cell.strV _ => true
  | _ => false

def getStr : Cell → List Char
  | Cell.strV s => s
  | _ => []

/-- The body of `extract_video_id` after the type guard: shorts regex first,
then the `youtu.be` branch, then the `youtube.com`/query branch, else `None`.
The enclosing `try/except` is dead on string input (none of the library calls
raise on a `str`), so the embedding is total. -/
def extractFromUrl (url : List Char) : Option (List Char) :=
  match (if containsSub "shorts".data url then searchShorts url else none) with
  | some r => some r
  | none =>
    if containsSub "youtu.be".data url then
      some (beforeQuery (afterLastSlash url))
    else if containsSub "youtube.com".data url then
      let q := urlQuery url
      if q.isEmpty then none else parseQsV q
    else none

/-- `extract_video_id` (src/excel_summarizer.py lines 88-118), including the
guard `if not url or not isinstance(url, str): return None`. -/
def extract_video_id (cell : Cell) : Option (List Char) :=
  if !pyTruthy cell || !isStrCell cell then none
  else extractFromUrl (getStr cell)

/-! ## Summarizer and title lookup (src/excel_summarizer.py lines 120-190) -/

/-- Retry constants of `get_video_title_async` (lines 122-123). -/
def max_retries : Nat := 3

def retry_delay : Nat := 1

/-- Outcome of one attempt of the title HTTP request: a 200 response with a
non-empty `items` list, a fatal-but-returned response (non-200 status, or 200
with no items — both return the same default message without retrying), or a
raised exception (network error, missing API key, ...). -/
inductive TitleAttempt where
  | ok : List Char → TitleAttempt
  | noTitle : TitleAttempt
  | exn : List Char → TitleAttempt
deriving DecidableEq

def default_title_msg : List Char := "제목을 가져올 수 없습니다".data

def title_fail_msg (m : List Char) : List Char :=
  "제목 가져오기 실패: ".data ++ m

/-- Result of `get_video_title_async`: the returned string together with the
number of `asyncio.sleep(retry_delay)` calls performed. -/
structure TitleCall where
  title : List Char
  delays : Nat
deriving DecidableEq

/-- The `for attempt in range(max_retries)` loop of `get_video_title_async`.
`fuel` is the number of attempts still available including the current one;
`i` indexes the oracle; an exception sleeps and retries unless this was the
last attempt, in which case the diagnostic string is returned. -/
def titleLoop (att : Nat → TitleAttempt) : Nat → Nat → Nat → TitleCall
  | 0, _, delays => ⟨[], delays⟩
  | fuel + 1, i, delays =>
    match att i with
    | TitleAttempt.ok t => ⟨t, delays⟩
    | TitleAttempt.noTitle => ⟨default_title_msg, delays⟩
    | TitleAttempt.exn m =>
      if fuel = 0 then ⟨title_fail_msg m, delays⟩
      else titleLoop att fuel (i + 1) (delays + 1)

/-- `get_video_title_async` (src/excel_summarizer.py lines 120-143). -/
def get_video_title_async (att : Nat → TitleAttempt) : TitleCall :=
  titleLoop att max_retries 0 0

/-- Outcome of one `YouTubeTranscriptApi.get_transcript(video_id, languages=[l])`
call: a transcript (list of utterance texts), `NoTranscriptFound`,
`TranscriptsDisabled`, or any other exception. -/
inductive TranscriptFetch where
  | found : List (List Char) → TranscriptFetch
  | notFound : TranscriptFetch
  | disabled : TranscriptFetch
  | otherErr : List Char → TranscriptFetch
deriving DecidableEq

/-- The tagged outcome of the transcript-resolution state machine. -/
inductive TranscriptOutcome where
  | text : List (List Char) → TranscriptOutcome
  | noCaptions : TranscriptOutcome
  | disabledOut : TranscriptOutcome
  | errOut : List Char → TranscriptOutcome
deriving DecidableEq

/-- The nested `try/except` of `get_video_summary_async` lines 151-157 together
with the outer handlers (lines 185-190), as an explicit state machine.
The Boolean records whether the fallback (English) fetch was invoked:
`NoTranscriptFound` from the Korean fetch triggers the English fetch, while a
Korean success, `TranscriptsDisabled` or any other error never does. -/
def resolveTranscript (ko en : TranscriptFetch) : TranscriptOutcome × Bool :=
  match ko with
  | TranscriptFetch.found e => (TranscriptOutcome.text e, false)
  | TranscriptFetch.disabled => (TranscriptOutcome.disabledOut, false)
  | TranscriptFetch.otherErr m => (TranscriptOutcome.errOut m, false)
  | TranscriptFetch.notFound =>
    match en with
    | TranscriptFetch.found e => (TranscriptOutcome.text e, true)
    | TranscriptFetch.disabled => (TranscriptOutcome.disabledOut, true)
    | TranscriptFetch.otherErr m => (TranscriptOutcome.errOut m, true)
    | TranscriptFetch.notFound => (TranscriptOutcome.noCaptions, true)

/-- Outcome of one `client.chat.completions.create` call. -/
inductive GenResult where
  | ok : List Char → GenResult
  | err : List Char → GenResult
deriving DecidableEq

def no_captions_msg : List Char := "이 비디오에 대한 자막을 찾을 수 없습니다.".data

def disabled_msg : List Char := "스크립트가 비활성화되어 있습니다.".data

def generic_err (m : List Char) : List Char := "오류가 발생했습니다: ".data ++ m

/-- `" ".join(entry['text'] for entry in transcript)` (line 162). -/
def joinSpace (entries : List (List Char)) : List Char :=
  List.intercalate [' '] entries

/-- Result of `get_video_summary_async`: the returned
`(original_text, summary_text)` pair, instrumented with the number of
completion calls made, the number of inter-attempt sleeps performed (the
function contains no sleep at all), and whether the fallback-language
transcript fetch was invoked. -/
structure SummaryCall where
  original_text : List Char
  summary_text : List Char
  genCalls : Nat
  delays : Nat
  fallbackInvoked : Bool
deriving DecidableEq

/-- `get_video_summary_async` (src/excel_summarizer.py lines 145-190).
The transcript fetches and the completion call are oracles; the completion
oracle is indexed by attempt number, of which the code only ever uses
attempt 0 — a failure is caught by the outer generic handler, which returns
the diagnostic pair `("", "오류가 발생했습니다: ...")` immediately. -/
def get_video_summary_async (ko en : TranscriptFetch) (gen : Nat → GenResult) :
    SummaryCall :=
  match resolveTranscript ko en with
  | (TranscriptOutcome.text entries, fb) =>
    let full_text := joinSpace entries
    match gen 0 with
    | GenResult.ok s => ⟨full_text, s, 1, 0, fb⟩
    | GenResult.err m => ⟨[], generic_err m, 1, 0, fb⟩
  | (TranscriptOutcome.noCaptions, fb) => ⟨[], no_captions_msg, 0, 0, fb⟩
  | (TranscriptOutcome.disabledOut, fb) => ⟨[], disabled_msg, 0, 0, fb⟩
  | (TranscriptOutcome.errOut m, fb) => ⟨[], generic_err m, 0, 0, fb⟩

/-! ## Batch Orchestrator (`process_excel_thread`, src/excel_summarizer.py lines 631-704) -/

/-- One row of the output table, i.e. the dict appended to `results`
(keys 제목 / URL / 원본 자막 / GPT 요약). -/
structure SummaryRecord where
  title : List Char
  url : Cell
  original_text : List Char
  summary_text : List Char
deriving DecidableEq

def invalid_title : List Char := "유효하지 않은 URL".data

def invalid_summary : List Char := "유효하지 않은 YouTube URL입니다.".data

/-- One input row together with the oracles describing what the external
services would answer for this row's video. -/
structure RowEnv where
  cell : Cell
  titleAtt : Nat → TitleAttempt
  ko : TranscriptFetch
  en : TranscriptFetch
  gen : Nat → GenResult

/-- The body of the `for index, row in df.iterrows()` loop for one row
(lines 649-673): extract the id; on success run the title lookup and the
summarizer, on failure synthesize the flagged record. -/
def processRow (r : RowEnv) : SummaryRecord :=
  match extract_video_id r.cell with
  | some _ =>
    let t := get_video_title_async r.titleAtt
    let s := get_video_summary_async r.ko r.en r.gen
    ⟨t.title, r.cell, s.original_text, s.summary_text⟩
  | none => ⟨invalid_title, r.cell, [], invalid_summary⟩

/-- The row loop of `process_excel_thread`. `alive i` is the value of the
shared `self.processing` flag at the check performed before row `i`
(0-indexed); a `false` reading makes the function `return` at once, so the
accumulated rows are reported with completion flag `false`. -/
def processLoop : List RowEnv → (Nat → Bool) → Nat → List SummaryRecord × Bool
  | [], _, _ => ([], true)
  | r :: rest, alive, i =>
    if alive i then
      let p := processLoop rest alive (i + 1)
      (processRow r :: p.1, p.2)
    else ([], false)

/-- `process_excel_thread` (src/excel_summarizer.py lines 631-704): the output
artifact. The early `return` on cancellation (lines 645-647) skips the
`save_excel_with_formatting` call entirely, so a cancelled run produces no
output table at all — modelled as `none`. -/
def process_excel_thread (rows : List RowEnv) (alive : Nat → Bool) :
    Option (List SummaryRecord) :=
  let p := processLoop rows alive 0
  if p.2 then some p.1 else none

/-! ## Duration Formatter and Search Paginator (src/Youtube_search.py) -/

/-- Python's `f"{n:02}"` on a natural number: the decimal representation,
left-padded with `0` to width at least 2. -/
def pad2 (n : Nat) : String :=
  if n < 10 then "0" ++ toString n else toString n

/-- `format_duration` (src/Youtube_search.py lines 29-41) on the total number
of elapsed seconds; `isodate.parse_duration`, which merely converts the ISO
8601 string into that number, is abstracted away. The two `divmod` steps and
the zero-padded formatting are kept exactly. -/
def format_duration (totalSeconds : Nat) : String :=
  let hours := totalSeconds / 3600
  let remainder := totalSeconds % 3600
  let minutes := remainder / 60
  let seconds := remainder % 60
  pad2 hours ++ ":" ++ pad2 minutes ++ ":" ++ pad2 seconds

/-- The parsed fields of one successful video-details response
(`video_info['items'][0]`), with the optional fields already defaulted the
way the source defaults them (`.get('channelId', '')`, `.get('viewCount', 0)`,
`.get('commentCount', 0)`, `.get('tags', [])`). The duration is carried as
total seconds and the publish timestamp as an opaque parsed value. -/
structure VideoData where
  title : List Char
  channelTitle : List Char
  channelId : List Char
  durationSeconds : Nat
  views : Nat
  comments : Nat
  tags : List (List Char)
  thumbnailUrl : List Char
  publishedDate : List Char
deriving DecidableEq

/-- Outcome of the per-item details request (lines 132-143): a transport
failure (`requests.exceptions.RequestException`, handled by `continue`), a
successful response whose `items` list is empty (silently skipped by the
`if 'items' in video_info and video_info['items']` check), or a successful
response with at least one item. -/
inductive DetailResult where
  | fail : DetailResult
  | empty : DetailResult
  | ok : VideoData → DetailResult
deriving DecidableEq

/-- One hit of a search page: its video id together with what the details
request for it would yield. -/
structure SearchHit where
  videoId : List Char
  detail : DetailResult
deriving DecidableEq

/-- One row of the search output table (the dict appended to
`video_details`, lines 165-179). -/
structure VideoRecord where
  index : Nat
  title : List Char
  channelTitle : List Char
  channelId : List Char
  duration : String
  views : Nat
  comments : Nat
  url : List Char
  thumbnailUrl : List Char
  tags : List Char
  publishedDate : List Char
deriving DecidableEq

/-- The record built for one successful detail response: the `Index` column is
the 1-based in-page position `idx` plus `total_results_fetched`, the prior
pages' cumulative hit count. -/
def mkRecord (idx total : Nat) (h : SearchHit) (v : VideoData) : VideoRecord :=
  { index := idx + total
    title := v.title
    channelTitle := v.channelTitle
    channelId := v.channelId
    duration := format_duration v.durationSeconds
    views := v.views
    comments := v.comments
    url := "https://www.youtube.com/watch?v=".data ++ h.videoId
    thumbnailUrl := v.thumbnailUrl
    tags := List.intercalate ", ".data v.tags
    publishedDate := v.publishedDate }

/-- The `for index, item in enumerate(search_results.get('items', []), start=1)`
loop (lines 124-179): a transport failure `continue`s, an empty-items response
appends nothing, a full response appends one record. -/
def enrichGo : List SearchHit → Nat → Nat → List VideoRecord
  | [], _, _ => []
  | h :: t, idx, total =>
    match h.detail with
    | DetailResult.ok v => mkRecord idx total h v :: enrichGo t (idx + 1) total
    | _ => enrichGo t (idx + 1) total

/-- Outcome of one search-page request: a transport failure (which `break`s
the pagination loop) or a response with its hits and whether a
`nextPageToken` is present. -/
inductive PageResult where
  | fail : PageResult
  | page : List SearchHit → Bool → PageResult

/-- The `while True` pagination loop of `fetch_youtube_data` (lines 101-186).
`pages i` is the response the API would give to the `i`-th page request;
`total` is `total_results_fetched`. The loop stops on transport failure, on a
missing next-page token, or once the cumulative hit count has reached 200 —
the check happens after the page has been processed. `fuel` bounds the
recursion (the Python loop can spin forever on an adversarial endless stream
of empty pages with tokens); every claim is about runs that the fuel covers. -/
def fetchGo (pages : Nat → PageResult) : Nat → Nat → Nat → List VideoRecord
  | _, _, 0 => []
  | pageIdx, total, fuel + 1 =>
    match pages pageIdx with
    | PageResult.fail => []
    | PageResult.page hits tok =>
      let recs := enrichGo hits 1 total
      let total2 := total + hits.length
      if tok = false ∨ 200 ≤ total2 then recs
      else recs ++ fetchGo pages (pageIdx + 1) total2 fuel

/-- `fetch_youtube_data` (src/Youtube_search.py lines 43-188), reduced to the
pagination/enrichment pipeline: the returned `video_details` list. -/
def fetch_youtube_data (pages : Nat → PageResult) (fuel : Nat) : List VideoRecord :=
  fetchGo pages 0 0 fuel

/-- The `Index` column of a result list. -/
def recIndices (l : List VideoRecord) : List Nat :=
  l.map (fun r => r.index)

def isTransportFail (h : SearchHit) : Bool :=
  match h.detail with
  | DetailResult.fail => true
  | _ => false

/-- The number of hits whose details request fails at the transport level. -/
def countFailHits (hits : List SearchHit) : Nat :=
  (hits.filter isTransportFail).length

def isOkHit (h : SearchHit) : Bool :=
  match h.detail with
  | DetailResult.ok _ => true
  | _ => false

/-! ## Helper lemmas -/

lemma isEmpty_false_of_ne {α : Type} {l : List α} (h : l ≠ []) :
    l.isEmpty = false := by
  cases l with
  | nil => exact absurd rfl h
  | cons a t => rfl

lemma takeWhile_all (p : Char → Bool) (l : List Char)
    (h : ∀ c ∈ l, p c = true) : l.takeWhile p = l := by
  induction l with
  | nil => rfl
  | cons c t ih =>
    have hc := h c (List.mem_cons_self c t)
    have ht := ih (fun d hd => h d (List.mem_cons_of_mem c hd))
    simp [List.takeWhile_cons, hc, ht]

lemma takeWhile_append_all (p : Char → Bool) (l r : List Char)
    (h : ∀ c ∈ l, p c = true) :
    (l ++ r).takeWhile p = l ++ r.takeWhile p := by
  induction l with
  | nil => rfl
  | cons c t ih =>
    have hc := h c (List.mem_cons_self c t)
    have ht := ih (fun d hd => h d (List.mem_cons_of_mem c hd))
    simp [List.cons_append, List.takeWhile_cons, hc, ht]

lemma mem_of_isPrefixOf {n l : List Char} (h : n.isPrefixOf l = true) :
    ∀ c ∈ n, c ∈ l := by
  induction n generalizing l with
  | nil => intro c hc; cases hc
  | cons a as ih =>
    cases l with
    | nil => cases h
    | cons b bs =>
      rw [List.isPrefixOf_cons₂] at h
      obtain ⟨hab, htail⟩ := Bool.and_eq_true _ _ |>.mp h
      intro c hc
      rcases List.mem_cons.mp hc with hc | hc
      · subst hc
        exact List.mem_cons.mpr (Or.inl (eq_of_beq hab))
      · exact List.mem_cons_of_mem b (ih htail c hc)

lemma mem_of_containsSub {n l : List Char} (h : containsSub n l = true) :
    ∀ c ∈ n, c ∈ l := by
  induction l with
  | nil =>
    intro c hc
    simp only [containsSub, List.isEmpty_iff] at h
    subst h; cases hc
  | cons b bs ih =>
    simp only [containsSub, Bool.or_eq_true] at h
    rcases h with h | h
    · exact mem_of_isPrefixOf h
    · exact fun c hc => List.mem_cons_of_mem b (ih h c hc)

lemma containsSub_false_of {n s : List Char}
    (hbad : ∃ c ∈ n, isIdChar c = false)
    (hgood : ∀ c ∈ s, isIdChar c = true) :
    containsSub n s = false := by
  cases hcs : containsSub n s with
  | false => rfl
  | true =>
    exfalso
    obtain ⟨c, hcn, hcbad⟩ := hbad
    have : c ∈ s := mem_of_containsSub hcs c hcn
    rw [hgood c this] at hcbad
    cases hcbad

lemma searchShorts_none {s : List Char}
    (hs : ∀ c ∈ s, isIdChar c = true) : searchShorts s = none := by
  induction s with
  | nil => rfl
  | cons c t ih =>
    have hm : matchShortsAt (c :: t) = none := by
      unfold matchShortsAt
      cases hp : "shorts/".data.isPrefixOf (c :: t) with
      | false => simp
      | true =>
        exfalso
        have hslash : '/' ∈ (c :: t) :=
          mem_of_isPrefixOf hp '/' (by decide)
        have := hs '/' hslash
        simp [isIdChar] at this
    simp only [searchShorts, hm]
    exact ih (fun d hd => hs d (List.mem_cons_of_mem c hd))

lemma splitOnChar_single {ch : Char} {s : List Char}
    (h : ∀ c ∈ s, (c == ch) = false) : splitOnChar ch s = [s] := by
  induction s with
  | nil => rfl
  | cons c t ih =>
    have hc := h c (List.mem_cons_self c t)
    have ht := ih (fun d hd => h d (List.mem_cons_of_mem c hd))
    simp [splitOnChar, hc, ht]

lemma bne_of_idChar {c d : Char} (hc : isIdChar c = true)
    (hd : isIdChar d = false) : (c != d) = true := by
  cases heq : c == d with
  | false => simp [bne, heq]
  | true =>
    exfalso
    rw [eq_of_beq heq, hd] at hc
    cases hc

lemma beq_false_of_idChar {c d : Char} (hc : isIdChar c = true)
    (hd : isIdChar d = false) : (c == d) = false := by
  cases h : c == d with
  | false => rfl
  | true =>
    exfalso
    rw [eq_of_beq h, hd] at hc
    cases hc

lemma extract_shorts_template (id : List Char) (hne : id ≠ [])
    (hid : ∀ c ∈ id, isIdChar c = true) :
    extract_video_id (Cell.strV ("https://youtube.com/shorts/".data ++ id)) = some id := by
  have ht : id.takeWhile isIdChar = id := takeWhile_all _ _ hid
  have hie : id.isEmpty = false := isEmpty_false_of_ne hne
  have h0 : "shorts/".data.isPrefixOf ("shorts/".data ++ id) = true := by
    rw [ List.isPrefixOf_iff_prefix]
    exact List.prefix_append _ _
  have h1 : ("shorts/".data ++ id).drop 7 = id := rfl
  have hm : matchShortsAt ("shorts/".data ++ id) = some id := by
    simp only [matchShortsAt, h0, if_true, h1, ht, hie]
    simp
  have hred : searchShorts ("https://youtube.com/shorts/".data ++ id) =
      (match matchShortsAt ("shorts/".data ++ id) with
       | some r => some r
       | none => searchShorts ("horts/".data ++ id)) := rfl
  have hsearch : searchShorts ("https://youtube.com/shorts/".data ++ id) = some id := by
    rw [hred, hm]
  have hcs : containsSub "shorts".data ("https://youtube.com/shorts/".data ++ id) = true := rfl
  have hguard : extract_video_id (Cell.strV ("https://youtube.com/shorts/".data ++ id)) =
      extractFromUrl ("https://youtube.com/shorts/".data ++ id) := rfl
  rw [hguard]
  simp only [extractFromUrl, hcs, if_true, hsearch]

lemma extract_shortlink_template (id : List Char)
    (hid : ∀ c ∈ id, isIdChar c = true) :
    extract_video_id (Cell.strV ("https://youtu.be/".data ++ id)) = some id := by
  have hsh : containsSub "shorts".data ("https://youtu.be/".data ++ id) =
      containsSub "shorts".data id := rfl
  have hsr : searchShorts ("https://youtu.be/".data ++ id) = searchShorts id := rfl
  have hshorts : (if containsSub "shorts".data ("https://youtu.be/".data ++ id) then
      searchShorts ("https://youtu.be/".data ++ id) else none) = none := by
    rw [hsh, hsr]
    cases hc : containsSub "shorts".data id with
    | false => simp
    | true => simp [searchShorts_none hid]
  have hyb : containsSub "youtu.be".data ("https://youtu.be/".data ++ id) = true := rfl
  have hafter : afterLastSlash ("https://youtu.be/".data ++ id) = id := by
    unfold afterLastSlash
    rw [List.reverse_append]
    rw [takeWhile_append_all _ _ _
      (fun c hc => bne_of_idChar (hid c (List.mem_reverse.mp hc)) (by decide))]
    rw [show ("https://youtu.be/".data.reverse.takeWhile (fun c => c != '/')) = []
        from rfl]
    simp
  have hbefore : beforeQuery id = id :=
    takeWhile_all _ _ (fun c hc => bne_of_idChar (hid c hc) (by decide))
  have hguard : extract_video_id (Cell.strV ("https://youtu.be/".data ++ id)) =
      extractFromUrl ("https://youtu.be/".data ++ id) := rfl
  rw [hguard]
  simp only [extractFromUrl, hshorts, hyb, if_true, hafter, hbefore]

lemma extract_canonical_template (id : List Char) (hne : id ≠ [])
    (hid : ∀ c ∈ id, isIdChar c = true) :
    extract_video_id (Cell.strV ("https://www.youtube.com/watch?v=".data ++ id)) = some id := by
  have hie : id.isEmpty = false := isEmpty_false_of_ne hne
  have hsh : containsSub "shorts".data ("https://www.youtube.com/watch?v=".data ++ id) =
      containsSub "shorts".data id := rfl
  have hsr : searchShorts ("https://www.youtube.com/watch?v=".data ++ id) =
      searchShorts id := rfl
  have hshorts : (if containsSub "shorts".data ("https://www.youtube.com/watch?v=".data ++ id) then
      searchShorts ("https://www.youtube.com/watch?v=".data ++ id) else none) = none := by
    rw [hsh, hsr]
    cases hc : containsSub "shorts".data id with
    | false => simp
    | true => simp [searchShorts_none hid]
  have hyb : containsSub "youtu.be".data ("https://www.youtube.com/watch?v=".data ++ id) =
      containsSub "youtu.be".data id := rfl
  have hybf : containsSub "youtu.be".data id = false :=
    containsSub_false_of ⟨'.', by decide, by decide⟩ hid
  have hyc : containsSub "youtube.com".data ("https://www.youtube.com/watch?v=".data ++ id) =
      true := rfl
  have hq : urlQuery ("https://www.youtube.com/watch?v=".data ++ id) = 'v' :: '=' :: id := by
    simp only [urlQuery]
    have hnf : ("https://www.youtube.com/watch?v=".data ++ id).takeWhile
        (fun c => c != '#') = "https://www.youtube.com/watch?v=".data ++ id := by
      rw [takeWhile_append_all _ _ _ (by decide)]
      rw [takeWhile_all _ _ (fun c hc => bne_of_idChar (hid c hc) (by decide))]
    have hdw : ("https://www.youtube.com/watch?v=".data ++ id).dropWhile
        (fun c => c != '?') = '?' :: 'v' :: '=' :: id := rfl
    simp only [hnf, hdw]
  have hsplit : splitOnChar '&' ('v' :: '=' :: id) = ['v' :: '=' :: id] := by
    apply splitOnChar_single
    intro c hc
    rcases List.mem_cons.mp hc with h | hc
    · subst h; decide
    rcases List.mem_cons.mp hc with h | hc
    · subst h; decide
    · exact beq_false_of_idChar (hid c hc) (by decide)
  have hse : splitEq ('v' :: '=' :: id) = some (['v'], id) := rfl
  have hv : parseQsV ('v' :: '=' :: id) = some id := by
    unfold parseQsV
    rw [hsplit]
    simp only [findV, hse, hie]
    simp
  have hguard : extract_video_id (Cell.strV ("https://www.youtube.com/watch?v=".data ++ id)) =
      extractFromUrl ("https://www.youtube.com/watch?v=".data ++ id) := rfl
  rw [hguard]
  simp only [extractFromUrl, hshorts, hyb, hybf, hyc, if_true, if_false, hq, hv]
  simp

lemma extract_none_of_no_markers (url : List Char)
    (h1 : containsSub "shorts".data url = false)
    (h2 : containsSub "youtu.be".data url = false)
    (h3 : containsSub "youtube.com".data url = false) :
    extract_video_id (Cell.strV url) = none := by
  cases url with
  | nil => rfl
  | cons c t =>
    have hguard : extract_video_id (Cell.strV (c :: t)) = extractFromUrl (c :: t) := rfl
    rw [hguard]
    simp only [extractFromUrl, h1, h2, h3]
    simp

/-! ## Claim C6 and C10: the Identifier Extractor -/

/-- C6: for every string in one of the supported URL shapes (canonical watch
URL, short-link URL, shorts URL, instantiated with any non-empty identifier
over the id alphabet), the extractor returns exactly the embedded identifier;
the shapes are tried in the order shorts, short-domain, canonical with the
first match winning (witnessed by a URL containing both the shorts pattern
and the short-domain marker, where the shorts extraction wins); and every
string with none of the recognizable markers yields `none`. The embedding is
a total function, so no exception is ever raised. -/
theorem c6_identifier_extractor (id : List Char) (hne : id ≠ [])
    (hid : ∀ c ∈ id, isIdChar c = true) (url : List Char)
    (h1 : containsSub "shorts".data url = false)
    (h2 : containsSub "youtu.be".data url = false)
    (h3 : containsSub "youtube.com".data url = false) :
    extract_video_id (Cell.strV ("https://youtube.com/shorts/".data ++ id)) = some id
  ∧ extract_video_id (Cell.strV ("https://youtu.be/".data ++ id)) = some id
  ∧ extract_video_id (Cell.strV ("https://www.youtube.com/watch?v=".data ++ id)) = some id
  ∧ extract_video_id (Cell.strV url) = none
  ∧ extract_video_id (Cell.strV "https://youtu.be/shorts/abc/def".data) = some "abc".data :=
  ⟨extract_shorts_template id hne hid, extract_shortlink_template id hid,
   extract_canonical_template id hne hid, extract_none_of_no_markers url h1 h2 h3,
   by decide⟩

/-- Witness for C6 at the concrete identifier `dQw4w9WgXcQ` and the
pattern-free string `not a url`. -/
theorem c6_identifier_extractor_witness :
    extract_video_id (Cell.strV ("https://youtube.com/shorts/".data ++ "dQw4w9WgXcQ".data)) =
      some "dQw4w9WgXcQ".data
  ∧ extract_video_id (Cell.strV ("https://youtu.be/".data ++ "dQw4w9WgXcQ".data)) =
      some "dQw4w9WgXcQ".data
  ∧ extract_video_id (Cell.strV ("https://www.youtube.com/watch?v=".data ++ "dQw4w9WgXcQ".data)) =
      some "dQw4w9WgXcQ".data
  ∧ extract_video_id (Cell.strV "not a url".data) = none
  ∧ extract_video_id (Cell.strV "https://youtu.be/shorts/abc/def".data) = some "abc".data :=
  c6_identifier_extractor "dQw4w9WgXcQ".data (by decide) (by decide)
    "not a url".data (by decide) (by decide) (by decide)

/-- C10: `None`, the empty string, and any non-string cell value (such as the
truthy float NaN that pandas yields for a blank spreadsheet cell) are all sent
to the unrecognized outcome `none` by the type guard, without raising; in the
batch loop such a cell therefore degrades to the flagged
invalid-URL record. -/
theorem c10_type_guard :
    extract_video_id Cell.noneV = none
  ∧ extract_video_id (Cell.strV []) = none
  ∧ (∀ b, extract_video_id (Cell.numV b) = none)
  ∧ ∀ att ko en gen, processRow ⟨Cell.numV true, att, ko, en, gen⟩ =
      ⟨invalid_title, Cell.numV true, [], invalid_summary⟩ := by
  refine ⟨rfl, rfl, ?_, ?_⟩
  · intro b; cases b <;> rfl
  · intro att ko en gen; rfl

/-! ## Claim C4: the Transcript Resolver -/

/-- C4: a preferred-language (Korean) success short-circuits the fallback —
the English fetch is never invoked and its transcript is irrelevant; when the
preferred language is not found but the fallback is, the fallback transcript
is used; when neither is found the result is the no-captions message; and a
captions-disabled signal from either fetch yields the disabled message. -/
theorem c4_transcript_resolver :
    (∀ e en, resolveTranscript (TranscriptFetch.found e) en = (TranscriptOutcome.text e, false))
  ∧ (∀ e en gen, (get_video_summary_async (TranscriptFetch.found e) en gen).fallbackInvoked = false)
  ∧ (∀ e, resolveTranscript TranscriptFetch.notFound (TranscriptFetch.found e) =
      (TranscriptOutcome.text e, true))
  ∧ (∀ e gen s, gen 0 = GenResult.ok s →
      get_video_summary_async TranscriptFetch.notFound (TranscriptFetch.found e) gen =
        ⟨joinSpace e, s, 1, 0, true⟩)
  ∧ (∀ gen, get_video_summary_async TranscriptFetch.notFound TranscriptFetch.notFound gen =
      ⟨[], no_captions_msg, 0, 0, true⟩)
  ∧ (∀ en gen, get_video_summary_async TranscriptFetch.disabled en gen =
      ⟨[], disabled_msg, 0, 0, false⟩)
  ∧ (∀ gen, get_video_summary_async TranscriptFetch.notFound TranscriptFetch.disabled gen =
      ⟨[], disabled_msg, 0, 0, true⟩) := by
  refine ⟨fun e en => rfl, ?_, fun e => rfl, ?_, fun gen => rfl, fun en gen => rfl,
    fun gen => rfl⟩
  · intro e en gen
    unfold get_video_summary_async
    cases gen 0 <;> rfl
  · intro e gen s hg
    unfold get_video_summary_async
    simp only [resolveTranscript, hg]

/-- Witness for C4 at a concrete transcript and completion oracle. -/
theorem c4_transcript_resolver_witness :
    resolveTranscript (TranscriptFetch.found ["안녕".data]) TranscriptFetch.notFound =
      (TranscriptOutcome.text ["안녕".data], false)
  ∧ get_video_summary_async TranscriptFetch.notFound
      (TranscriptFetch.found ["hi".data, "there".data]) (fun _ => GenResult.ok "요약".data) =
      ⟨joinSpace ["hi".data, "there".data], "요약".data, 1, 0, true⟩ :=
  ⟨c4_transcript_resolver.1 ["안녕".data] TranscriptFetch.notFound,
   c4_transcript_resolver.2.2.2.1 ["hi".data, "there".data]
     (fun _ => GenResult.ok "요약".data) "요약".data rfl⟩

/-! ## Claim C2: retry policy of the Summarizer and the title lookup -/

/-- The completion oracle of the C2 counterexample: attempts 0 and 1 fail,
attempt 2 would succeed. -/
def genFailFailOk : Nat → GenResult :=
  fun i => if i = 0 then GenResult.err "e1".data
    else if i = 1 then GenResult.err "e2".data
    else GenResult.ok "summary".data

/-- C2 counterexample: with a completion service that fails twice and would
succeed on the third attempt, `get_video_summary_async` does not return the
successful summary after 2 delays — it makes a single completion call,
performs 0 inter-attempt delays, and returns the diagnostic failure pair
right away. The claimed retry loop does not exist in the Summarizer. -/
theorem c2_retry_counterexample :
    get_video_summary_async (TranscriptFetch.found ["hello".data]) TranscriptFetch.notFound
      genFailFailOk = ⟨[], generic_err "e1".data, 1, 0, false⟩
  ∧ (get_video_summary_async (TranscriptFetch.found ["hello".data]) TranscriptFetch.notFound
      genFailFailOk).summary_text ≠ "summary".data
  ∧ (get_video_summary_async (TranscriptFetch.found ["hello".data]) TranscriptFetch.notFound
      genFailFailOk).delays = 0 := by
  refine ⟨rfl, by decide, rfl⟩

/-- C2 amended: the Summarizer itself performs exactly one completion attempt
and no delay — a failed first attempt immediately yields the diagnostic
string. The claimed bounded-retry discipline (`max_retries = 3` attempts,
`retry_delay`-second sleeps between attempts, diagnostic string only after
exhaustion) is implemented by the title lookup `get_video_title_async`: a
fail/fail/success attempt sequence returns the successful title after exactly
2 delays, and a fail/fail/fail sequence returns the diagnostic failure string
after exactly 2 delays. -/
theorem c2_retry_amended :
    (∀ entries en gen m, gen 0 = GenResult.err m →
      get_video_summary_async (TranscriptFetch.found entries) en gen =
        ⟨[], generic_err m, 1, 0, false⟩)
  ∧ (∀ att t e0 e1, att 0 = TitleAttempt.exn e0 → att 1 = TitleAttempt.exn e1 →
      att 2 = TitleAttempt.ok t → get_video_title_async att = ⟨t, 2⟩)
  ∧ (∀ att e0 e1 e2, att 0 = TitleAttempt.exn e0 → att 1 = TitleAttempt.exn e1 →
      att 2 = TitleAttempt.exn e2 →
      get_video_title_async att = ⟨title_fail_msg e2, 2⟩) := by
  refine ⟨?_, ?_, ?_⟩
  · intro entries en gen m hg
    unfold get_video_summary_async
    simp only [resolveTranscript, hg]
  · intro att t e0 e1 h0 h1 h2
    unfold get_video_title_async max_retries
    simp [titleLoop, h0, h1, h2]
  · intro att e0 e1 e2 h0 h1 h2
    unfold get_video_title_async max_retries
    simp [titleLoop, h0, h1, h2]

/-- A concrete title-lookup oracle that fails twice and succeeds on the
third attempt. -/
def attFailFailOk : Nat → TitleAttempt :=
  fun i => if i = 0 then TitleAttempt.exn "t1".data
    else if i = 1 then TitleAttempt.exn "t2".data
    else TitleAttempt.ok "제목".data

/-- Witness for the amended C2 at concrete oracles. -/
theorem c2_retry_amended_witness :
    get_video_summary_async (TranscriptFetch.found ["hello".data]) TranscriptFetch.notFound
      genFailFailOk = ⟨[], generic_err "e1".data, 1, 0, false⟩
  ∧ get_video_title_async attFailFailOk = ⟨"제목".data, 2⟩ :=
  ⟨c2_retry_amended.1 ["hello".data] TranscriptFetch.notFound genFailFailOk "e1".data rfl,
   c2_retry_amended.2.1 attFailFailOk "제목".data "t1".data "t2".data rfl rfl rfl⟩

/-! ## Claims C5 and C1: the Batch Orchestrator -/

lemma processLoop_complete (rows : List RowEnv) (alive : Nat → Bool) :
    ∀ i, (∀ j, j < rows.length → alive (i + j) = true) →
    processLoop rows alive i = (rows.map processRow, true) := by
  induction rows with
  | nil => intro i h; rfl
  | cons r rest ih =>
    intro i h
    have hi : alive i = true := by
      have := h 0 (by simp)
      simpa using this
    have hrest : processLoop rest alive (i + 1) = (rest.map processRow, true) := by
      apply ih
      intro j hj
      have := h (j + 1) (by simpa using Nat.succ_lt_succ hj)
      simpa [Nat.add_assoc, Nat.add_comm 1 j] using this
    simp [processLoop, hi, hrest]

lemma processLoop_cancelled (rows : List RowEnv) (alive : Nat → Bool) :
    ∀ i k, k < rows.length → (∀ j, j < k → alive (i + j) = true) →
    alive (i + k) = false →
    processLoop rows alive i = ((rows.take k).map processRow, false) := by
  induction rows with
  | nil => intro i k hk; exact absurd hk (by simp)
  | cons r rest ih =>
    intro i k hk h1 h2
    cases k with
    | zero =>
      have hi : alive i = false := by simpa using h2
      simp [processLoop, hi]
    | succ k' =>
      have hi : alive i = true := by
        have := h1 0 (Nat.succ_pos k')
        simpa using this
      have hrest : processLoop rest alive (i + 1) = ((rest.take k').map processRow, false) := by
        apply ih
        · simpa using Nat.lt_of_succ_lt_succ hk
        · intro j hj
          have := h1 (j + 1) (Nat.succ_lt_succ hj)
          simpa [Nat.add_assoc, Nat.add_comm 1 j] using this
        · have : i + 1 + k' = i + (k' + 1) := by omega
          rw [this]
          exact h2
      simp [processLoop, hi, hrest]

/-- C5: when the batch runs to completion (the cancellation flag never reads
false), the output table exists and has exactly one `SummaryRecord` per input
row, in input order, for any mix of valid/invalid cells and any transcript or
generation outcomes; a row whose cell fails extraction contributes the flagged
diagnostic record rather than being omitted. -/
theorem c5_row_parity (rows : List RowEnv) (alive : Nat → Bool)
    (h : ∀ j, j < rows.length → alive j = true) :
    process_excel_thread rows alive = some (rows.map processRow)
  ∧ (rows.map processRow).length = rows.length
  ∧ ∀ r ∈ rows, extract_video_id r.cell = none →
      processRow r = ⟨invalid_title, r.cell, [], invalid_summary⟩ := by
  refine ⟨?_, List.length_map _ _, ?_⟩
  · have hp : processLoop rows alive 0 = (rows.map processRow, true) :=
      processLoop_complete rows alive 0 (fun j hj => by simpa using h j hj)
    simp [process_excel_thread, hp]
  · intro r _ hr
    simp [processRow, hr]

/-- A concrete valid row: a canonical watch URL, a title lookup and
transcript/completion oracles that all succeed. -/
def rowValid : RowEnv :=
  { cell := Cell.strV "https://www.youtube.com/watch?v=dQw4w9WgXcQ".data
    titleAtt := fun _ => TitleAttempt.ok "Title".data
    ko := TranscriptFetch.found ["ab".data]
    en := TranscriptFetch.notFound
    gen := fun _ => GenResult.ok "Sum".data }

/-- A concrete invalid row: a NaN cell read from a blank spreadsheet cell. -/
def rowInvalid : RowEnv :=
  { cell := Cell.numV true
    titleAtt := fun _ => TitleAttempt.ok "Title".data
    ko := TranscriptFetch.found ["ab".data]
    en := TranscriptFetch.notFound
    gen := fun _ => GenResult.ok "Sum".data }

/-- Witness for C5: a two-row batch (one valid URL, one NaN cell) with the
flag always true produces exactly two records. -/
theorem c5_row_parity_witness :
    process_excel_thread [rowValid, rowInvalid] (fun _ => true) =
      some ([rowValid, rowInvalid].map processRow)
  ∧ ([rowValid, rowInvalid].map processRow).length = 2 :=
  ⟨(c5_row_parity [rowValid, rowInvalid] (fun _ => true) (fun _ _ => rfl)).1,
   (c5_row_parity [rowValid, rowInvalid] (fun _ => true) (fun _ _ => rfl)).2.1⟩

/-- The cancellation schedule of the C1 counterexample: the flag is true at
the check before row 1 and false at the check before row 2 — the user pressed
stop while row 1 was being processed. -/
def aliveUntilOne : Nat → Bool := fun i => i == 0

/-- C1 counterexample: in a 2-row batch cancelled after row 1 has completed,
the orchestrator produces no output table at all (`none`): the early `return`
skips the save, so the output does not consist of the 1 completed row the
claim promises. -/
theorem c1_cancellation_counterexample :
    process_excel_thread [rowValid, rowValid] aliveUntilOne = none
  ∧ process_excel_thread [rowValid, rowValid] aliveUntilOne ≠ some [processRow rowValid] := by
  have h : process_excel_thread [rowValid, rowValid] aliveUntilOne = none := rfl
  exact ⟨h, by rw [h]; exact fun hc => Option.noConfusion hc⟩

/-- C1 amended: if the flag reads true before rows 1..k and false at the check
before row k+1 (k < n), the loop processes exactly the first k rows — the
accumulated in-memory list is precisely their records — but the run then
returns early without saving, so the emitted output is absent (`none`) rather
than a k-row table. -/
theorem c1_cancellation_amended (rows : List RowEnv) (alive : Nat → Bool) (k : Nat)
    (hk : k < rows.length) (h1 : ∀ j, j < k → alive j = true) (h2 : alive k = false) :
    processLoop rows alive 0 = ((rows.take k).map processRow, false)
  ∧ ((rows.take k).map processRow).length = k
  ∧ process_excel_thread rows alive = none := by
  have hp : processLoop rows alive 0 = ((rows.take k).map processRow, false) :=
    processLoop_cancelled rows alive 0 k hk (fun j hj => by simpa using h1 j hj)
      (by simpa using h2)
  refine ⟨hp, ?_, ?_⟩
  · rw [List.length_map, List.length_take]
    exact Nat.min_eq_left (Nat.le_of_lt hk)
  · simp [process_excel_thread, hp]

/-- Witness for the amended C1: the 2-row batch cancelled before row 2. -/
theorem c1_cancellation_amended_witness :
    processLoop [rowValid, rowInvalid] aliveUntilOne 0 =
      (([rowValid, rowInvalid].take 1).map processRow, false)
  ∧ (([rowValid, rowInvalid].take 1).map processRow).length = 1
  ∧ process_excel_thread [rowValid, rowInvalid] aliveUntilOne = none :=
  c1_cancellation_amended [rowValid, rowInvalid] aliveUntilOne 1 (by decide)
    (fun j hj => by have hz : j = 0 := by omega
                    rw [hz]; rfl) rfl

/-! ## Claim C9: the Duration Formatter -/

lemma pad2_len_two : ∀ m, m < 60 → (pad2 m).length = 2 := by decide

/-- C9: the formatter is a total function on non-negative durations with no
failure mode; 0 seconds gives `00:00:00` and 3723 seconds gives `01:02:03`;
every duration is rendered as the zero-padded sexagesimal decomposition
`HH:MM:SS` with two-digit minute and second fields and an unbounded,
non-modular hours field (100 hours renders as `100:00:00`, not reduced
modulo anything). -/
theorem c9_duration_formatter :
    format_duration 0 = "00:00:00"
  ∧ format_duration 3723 = "01:02:03"
  ∧ format_duration 360000 = "100:00:00"
  ∧ ∀ n : Nat, ∃ h m s : Nat,
      n = 3600 * h + 60 * m + s ∧ m < 60 ∧ s < 60 ∧
      format_duration n = pad2 h ++ ":" ++ pad2 m ++ ":" ++ pad2 s ∧
      (pad2 m).length = 2 ∧ (pad2 s).length = 2 := by
  refine ⟨by decide, by decide, by decide, ?_⟩
  intro n
  refine ⟨n / 3600, n % 3600 / 60, n % 3600 % 60, ?_, ?_, ?_, rfl, ?_, ?_⟩
  · omega
  · omega
  · omega
  · exact pad2_len_two _ (by omega)
  · exact pad2_len_two _ (by omega)

/-! ## Claim C7: the Detail Enricher -/

lemma enrichGo_length (hits : List SearchHit) :
    ∀ idx total, (∀ x ∈ hits, x.detail ≠ DetailResult.empty) →
    (enrichGo hits idx total).length + countFailHits hits = hits.length := by
  induction hits with
  | nil => intro idx total h; rfl
  | cons x t ih =>
    intro idx total h
    have hx := h x (List.mem_cons_self x t)
    have ht := ih (idx + 1) total (fun y hy => h y (List.mem_cons_of_mem x hy))
    cases hd : x.detail with
    | fail =>
      have hf : isTransportFail x = true := by simp [isTransportFail, hd]
      simp only [enrichGo, hd, countFailHits, List.filter_cons, hf, if_true,
        List.length_cons]
      simp only [countFailHits] at ht
      omega
    | empty => exact absurd hd hx
    | ok v =>
      have hf : isTransportFail x = false := by simp [isTransportFail, hd]
      simp only [enrichGo, hd, countFailHits, List.filter_cons, hf,
        List.length_cons]
      simp only [countFailHits] at ht
      simp only [Bool.false_eq_true, if_false]
      omega

/-- C7 amended: with `N` hits of which `M` fail at the transport level, the
enricher produces exactly `N − M` records — provided every successful detail
response carries at least one item. (A successful response with an empty
`items` list is also skipped, which is what the counterexample exhibits; the
run never halts either way, as the enricher is a total function.) -/
theorem c7_detail_enricher (hits : List SearchHit) (total : Nat)
    (h : ∀ x ∈ hits, x.detail ≠ DetailResult.empty) :
    (enrichGo hits 1 total).length + countFailHits hits = hits.length
  ∧ (enrichGo hits 1 total).length = hits.length - countFailHits hits := by
  have hlen := enrichGo_length hits 1 total h
  exact ⟨hlen, by omega⟩

/-- A hit whose details request succeeds with a full item. -/
def okHit : SearchHit :=
  ⟨"v1".data, DetailResult.ok
    ⟨"T".data, "C".data, "CI".data, 3723, 5, 2, ["a".data, "b".data],
     "th".data, "2024-01-01".data⟩⟩

/-- A hit whose details request fails at the transport level. -/
def failHit : SearchHit := ⟨"v2".data, DetailResult.fail⟩

/-- A hit whose details request succeeds but returns an empty `items` list
(e.g. a deleted video). -/
def emptyHit : SearchHit := ⟨"v3".data, DetailResult.empty⟩

/-- C7 counterexample: one discovered identifier, zero transport failures,
yet zero records — the details response succeeded with an empty `items` list,
so `N − M = 1` but the output has 0 records. -/
theorem c7_detail_enricher_counterexample :
    countFailHits [emptyHit] = 0
  ∧ (enrichGo [emptyHit] 1 0).length = 0
  ∧ (enrichGo [emptyHit] 1 0).length ≠ [emptyHit].length - countFailHits [emptyHit] := by
  refine ⟨rfl, rfl, by decide⟩

/-- Witness for the amended C7: three hits, one transport failure, two
records. -/
theorem c7_detail_enricher_witness :
    (enrichGo [okHit, failHit, okHit] 1 0).length +
      countFailHits [okHit, failHit, okHit] = 3
  ∧ (enrichGo [okHit, failHit, okHit] 1 0).length =
      3 - countFailHits [okHit, failHit, okHit] :=
  c7_detail_enricher [okHit, failHit, okHit] 0 (by decide)

/-! ## Claim C3: the Search Paginator's cap and termination -/

lemma enrichGo_length_le (hits : List SearchHit) :
    ∀ idx total, (enrichGo hits idx total).length ≤ hits.length := by
  induction hits with
  | nil => intro idx total; exact Nat.le_refl 0
  | cons x t ih =>
    intro idx total
    cases hd : x.detail with
    | ok v =>
      simp only [enrichGo, hd, List.length_cons]
      exact Nat.succ_le_succ (ih (idx + 1) total)
    | fail =>
      simp only [enrichGo, hd, List.length_cons]
      exact Nat.le_succ_of_le (ih (idx + 1) total)
    | empty =>
      simp only [enrichGo, hd, List.length_cons]
      exact Nat.le_succ_of_le (ih (idx + 1) total)

lemma fetchGo_step (pages : Nat → PageResult) (idx total f : Nat)
    (hits : List SearchHit) (tok : Bool) (hp : pages idx = PageResult.page hits tok) :
    fetchGo pages idx total (f + 1) =
      (if tok = false ∨ 200 ≤ total + hits.length then enrichGo hits 1 total
       else enrichGo hits 1 total ++ fetchGo pages (idx + 1) (total + hits.length) f) := by
  simp [fetchGo, hp]

lemma fetchGo_bound (fuel : Nat) : ∀ (pages : Nat → PageResult) (idx total : Nat),
    total < 200 → (∀ i h t, pages i = PageResult.page h t → h.length ≤ 50) →
    (fetchGo pages idx total fuel).length + total ≤ 249 := by
  induction fuel with
  | zero => intro pages idx total h1 h2; simp [fetchGo]; omega
  | succ f ih =>
    intro pages idx total h1 h2
    cases hp : pages idx with
    | fail => simp [fetchGo, hp]; omega
    | page hits tok =>
      have hlen : hits.length ≤ 50 := h2 idx hits tok hp
      have henr : (enrichGo hits 1 total).length ≤ hits.length :=
        enrichGo_length_le hits 1 total
      rw [fetchGo_step pages idx total f hits tok hp]
      by_cases hc : tok = false ∨ 200 ≤ total + hits.length
      · rw [if_pos hc]; omega
      · rw [if_neg hc]
        push_neg at hc
        have ihr := ih pages (idx + 1) (total + hits.length) (by omega) h2
        rw [List.length_append]
        omega

/-- C3 amended: the paginator's aggregate output never exceeds 249 items —
the 200-item cap is checked only after a full page has been appended, so the
final page can overshoot by up to 49 (a run of 199 accumulated hits may still
fetch one more 50-hit page) — and it stops as soon as a page response lacks a
continuation cursor: such a page is the last one processed, regardless of
what the API would answer afterwards. -/
theorem c3_paginator_cap (pages : Nat → PageResult)
    (hsize : ∀ i h t, pages i = PageResult.page h t → h.length ≤ 50) :
    (∀ fuel, (fetch_youtube_data pages fuel).length ≤ 249)
  ∧ (∀ hits fuel, pages 0 = PageResult.page hits false →
      fetch_youtube_data pages (fuel + 1) = enrichGo hits 1 0) := by
  constructor
  · intro fuel
    have := fetchGo_bound fuel pages 0 0 (by omega) hsize
    unfold fetch_youtube_data
    omega
  · intro hits fuel h0
    unfold fetch_youtube_data
    rw [fetchGo_step pages 0 0 fuel hits false h0]
    simp

/-- The page stream of the C3 counterexample: pages of 50, 50, 50, 49, 50
hits, all with continuation cursors; the cap check only fires once the total
has reached 199 + 50 = 249. -/
def pages249 : Nat → PageResult :=
  fun i => if i = 3 then PageResult.page (List.replicate 49 okHit) true
    else PageResult.page (List.replicate 50 okHit) true

/-- C3 counterexample: a run that accumulates 249 aggregate items, refuting
the claimed hard bound of 200. -/
theorem c3_paginator_cap_counterexample :
    (fetch_youtube_data pages249 9).length = 249
  ∧ 200 < (fetch_youtube_data pages249 9).length := by
  refine ⟨by decide, by decide⟩

/-- The single-page stream used by the C3 and C8 witnesses: one page, one
full hit, no continuation cursor. -/
def pagesOkW : Nat → PageResult := fun _ => PageResult.page [okHit] false

/-- Witness for the amended C3 at the concrete single-page stream. -/
theorem c3_paginator_cap_witness :
    (fetch_youtube_data pagesOkW 1).length ≤ 249
  ∧ fetch_youtube_data pagesOkW (0 + 1) = enrichGo [okHit] 1 0 := by
  have hsize : ∀ i h t, pagesOkW i = PageResult.page h t → h.length ≤ 50 := by
    intro i h t heq
    simp only [pagesOkW] at heq
    cases heq
    decide
  exact ⟨(c3_paginator_cap pagesOkW hsize).1 1,
         (c3_paginator_cap pagesOkW hsize).2 [okHit] 0 rfl⟩

/-! ## Claim C8: Index numbering across pages -/

lemma enrichGo_indices (hits : List SearchHit) :
    ∀ idx total,
    List.Pairwise (· < ·) (recIndices (enrichGo hits idx total))
  ∧ ∀ x ∈ recIndices (enrichGo hits idx total),
      idx + total ≤ x ∧ x < idx + hits.length + total := by
  induction hits with
  | nil =>
    intro idx total
    exact ⟨List.Pairwise.nil, by simp [recIndices, enrichGo]⟩
  | cons h t ih =>
    intro idx total
    obtain ⟨hpw, hbd⟩ := ih (idx + 1) total
    cases hd : h.detail with
    | ok v =>
      have hrec : recIndices (enrichGo (h :: t) idx total) =
          (idx + total) :: recIndices (enrichGo t (idx + 1) total) := by
        simp [enrichGo, hd, recIndices, mkRecord]
      rw [hrec]
      constructor
      · refine List.Pairwise.cons ?_ hpw
        intro x hx
        have := (hbd x hx).1
        omega
      · intro x hx
        simp only [List.length_cons]
        rcases List.mem_cons.mp hx with hx | hx
        · subst hx; omega
        · have := hbd x hx; omega
    | fail =>
      have hrec : recIndices (enrichGo (h :: t) idx total) =
          recIndices (enrichGo t (idx + 1) total) := by
        simp [enrichGo, hd]
      rw [hrec]
      refine ⟨hpw, ?_⟩
      intro x hx
      simp only [List.length_cons]
      have := hbd x hx
      omega
    | empty =>
      have hrec : recIndices (enrichGo (h :: t) idx total) =
          recIndices (enrichGo t (idx + 1) total) := by
        simp [enrichGo, hd]
      rw [hrec]
      refine ⟨hpw, ?_⟩
      intro x hx
      simp only [List.length_cons]
      have := hbd x hx
      omega

lemma range'_app (m : Nat) : ∀ (s n : Nat),
    List.range' s m ++ List.range' (s + m) n = List.range' s (m + n) := by
  induction m with
  | zero => intro s n; simp
  | succ k ih =>
    intro s n
    have hr : k + 1 + n = (k + n) + 1 := by omega
    rw [List.range'_succ, hr, List.range'_succ, List.cons_append]
    have h1 : s + (k + 1) = s + 1 + k := by omega
    rw [h1, ih (s + 1) n]

lemma enrichGo_indices_allok (hits : List SearchHit) :
    ∀ idx total, (∀ x ∈ hits, isOkHit x = true) →
    recIndices (enrichGo hits idx total) = List.range' (idx + total) hits.length := by
  induction hits with
  | nil => intro idx total _; rfl
  | cons h t ih =>
    intro idx total hall
    have hx := hall h (List.mem_cons_self h t)
    cases hd : h.detail with
    | fail => simp [isOkHit, hd] at hx
    | empty => simp [isOkHit, hd] at hx
    | ok v =>
      have hrec : recIndices (enrichGo (h :: t) idx total) =
          (idx + total) :: recIndices (enrichGo t (idx + 1) total) := by
        simp [enrichGo, hd, recIndices, mkRecord]
      rw [hrec, ih (idx + 1) total (fun y hy => hall y (List.mem_cons_of_mem h hy))]
      rw [List.length_cons, List.range'_succ]
      have h1 : idx + 1 + total = idx + total + 1 := by omega
      rw [h1]

lemma fetchGo_indices (fuel : Nat) : ∀ (pages : Nat → PageResult) (idx total : Nat),
    List.Pairwise (· < ·) (recIndices (fetchGo pages idx total fuel))
  ∧ ∀ x ∈ recIndices (fetchGo pages idx total fuel), total + 1 ≤ x := by
  induction fuel with
  | zero =>
    intro pages idx total
    exact ⟨List.Pairwise.nil, by simp [fetchGo, recIndices]⟩
  | succ f ih =>
    intro pages idx total
    cases hp : pages idx with
    | fail =>
      constructor
      · simp [fetchGo, hp, recIndices]
      · simp [fetchGo, hp, recIndices]
    | page hits tok =>
      obtain ⟨epw, ebd⟩ := enrichGo_indices hits 1 total
      rw [fetchGo_step pages idx total f hits tok hp]
      by_cases hc : tok = false ∨ 200 ≤ total + hits.length
      · rw [if_pos hc]
        refine ⟨epw, ?_⟩
        intro x hx
        have := (ebd x hx).1
        omega
      · rw [if_neg hc]
        obtain ⟨rpw, rbd⟩ := ih pages (idx + 1) (total + hits.length)
        have hmap : recIndices (enrichGo hits 1 total ++
            fetchGo pages (idx + 1) (total + hits.length) f) =
            recIndices (enrichGo hits 1 total) ++
            recIndices (fetchGo pages (idx + 1) (total + hits.length) f) := by
          simp [recIndices]
        rw [hmap]
        constructor
        · rw [List.pairwise_append]
          refine ⟨epw, rpw, ?_⟩
          intro a ha b hb
          have h1 := (ebd a ha).2
          have h2 := rbd b hb
          omega
        · intro x hx
          rcases List.mem_append.mp hx with hx | hx
          · have := (ebd x hx).1; omega
          · have := rbd x hx; omega

lemma fetchGo_allok (fuel : Nat) : ∀ (pages : Nat → PageResult) (idx total : Nat),
    (∀ i h t, pages i = PageResult.page h t → ∀ x ∈ h, isOkHit x = true) →
    ∃ m, recIndices (fetchGo pages idx total fuel) = List.range' (total + 1) m := by
  induction fuel with
  | zero =>
    intro pages idx total _
    exact ⟨0, rfl⟩
  | succ f ih =>
    intro pages idx total hall
    cases hp : pages idx with
    | fail => exact ⟨0, by simp [fetchGo, hp, recIndices]⟩
    | page hits tok =>
      have hok := hall idx hits tok hp
      have he : recIndices (enrichGo hits 1 total) = List.range' (1 + total) hits.length :=
        enrichGo_indices_allok hits 1 total hok
      rw [fetchGo_step pages idx total f hits tok hp]
      by_cases hc : tok = false ∨ 200 ≤ total + hits.length
      · refine ⟨hits.length, ?_⟩
        rw [if_pos hc, he]
        congr 1
        omega
      · obtain ⟨m, hm⟩ := ih pages (idx + 1) (total + hits.length) hall
        refine ⟨hits.length + m, ?_⟩
        rw [if_neg hc]
        have hmap : recIndices (enrichGo hits 1 total ++
            fetchGo pages (idx + 1) (total + hits.length) f) =
            recIndices (enrichGo hits 1 total) ++
            recIndices (fetchGo pages (idx + 1) (total + hits.length) f) := by
          simp [recIndices]
        rw [hmap, he, hm]
        have h1 : (1 + total) + hits.length = total + hits.length + 1 := by omega
        have h2 : List.range' (1 + total) hits.length ++
            List.range' ((1 + total) + hits.length) m =
            List.range' (1 + total) (hits.length + m) := range'_app hits.length (1 + total) m
        rw [h1] at h2
        rw [h2]
        congr 1
        omega

/-- C8 amended: each produced record's `Index` is its 1-based position within
its page plus the cumulative count of all hits of prior pages, so the `Index`
sequence is always strictly increasing (hence globally unique); it is
additionally gap-free — exactly `1, 2, ..., m` — whenever every hit's detail
fetch succeeds with a non-empty response (a skipped hit still advances the
numbering, which is what the counterexample exhibits). -/
theorem c8_index_numbering (pages : Nat → PageResult) (fuel : Nat) :
    List.Pairwise (· < ·) (recIndices (fetch_youtube_data pages fuel))
  ∧ ((∀ i h t, pages i = PageResult.page h t → ∀ x ∈ h, isOkHit x = true) →
      ∃ m, recIndices (fetch_youtube_data pages fuel) = List.range' 1 m) := by
  constructor
  · exact (fetchGo_indices fuel pages 0 0).1
  · intro hall
    obtain ⟨m, hm⟩ := fetchGo_allok fuel pages 0 0 hall
    exact ⟨m, hm⟩

/-- The page stream of the C8 counterexample: one page whose first hit fails
at the detail-fetch step and whose second succeeds. -/
def pagesGap : Nat → PageResult := fun _ => PageResult.page [failHit, okHit] false

/-- C8 counterexample: the surviving record has `Index` 2, so the index
sequence `[2]` has a gap — it is not `1, ..., m` for any `m`. -/
theorem c8_index_numbering_counterexample :
    recIndices (fetch_youtube_data pagesGap 1) = [2]
  ∧ recIndices (fetch_youtube_data pagesGap 1) ≠
      List.range' 1 (recIndices (fetch_youtube_data pagesGap 1)).length := by
  refine ⟨by decide, by decide⟩

/-- Witness for the amended C8 at the concrete all-successful page stream. -/
theorem c8_index_numbering_witness :
    List.Pairwise (· < ·) (recIndices (fetch_youtube_data pagesOkW 1))
  ∧ ∃ m, recIndices (fetch_youtube_data pagesOkW 1) = List.range' 1 m := by
  have hall : ∀ i h t, pagesOkW i = PageResult.page h t → ∀ x ∈ h, isOkHit x = true := by
    intro i h t heq x hx
    simp only [pagesOkW] at heq
    cases heq
    simp only [List.mem_singleton] at hx
    subst hx
    rfl
  exact ⟨(c8_index_numbering pagesOkW 1).1, (c8_index_numbering pagesOkW 1).2 hall⟩
